/-
Verification of the real-time delivery and presence subsystem of the
PandaNet chat server.

The definitions below are a shallow embedding of the TypeScript source:
  * `Message`, `updateMessageStatus`, `markChatMessagesAsDelivered`,
    `markChatMessagesAsSeen` embed the message-status operations of
    `server/storage.ts`;
  * `patchMessageStatus` embeds the `PATCH /api/messages/:messageId/status`
    route handler of the server routes file;
  * `ServerState`, `joinChat`, `closeConn`, `broadcastToChat` and the
    event-trace interpreter `run` embed the WebSocket gateway: the
    `clients` room map, the `onlineUsers` presence set, the `join_chat`
    message case and the `close` handler;
  * `reconnectStep`, `newMessageMerge` and `syncMerge` embed the
    client-side reconnect backoff (`useWebSocket` hook) and the two
    message-merge paths of `pages/Chat.tsx`.

Machine timestamps (`new Date()`) are modelled as explicit `Nat` clock
arguments; database rows are lists of records; JavaScript `Map`/array
state is modelled as association lists keeping JS iteration order.
-/
import Mathlib

namespace PandaNet

/-! ### Association-list helpers (JS `Map` with insertion order) -/

/-- Lookup in an association list (first entry with the key wins,
matching `Map.get`). -/
def alGet {α : Type} : List (Nat × α) → Nat → Option α
  | [], _ => none
  | (k, v) :: t, key => if k = key then some v else alGet t key

/-- `Map.set`: replace the first binding of `key`, or append a new
binding at the end (JS `Map` keeps insertion order). -/
def alSet {α : Type} : List (Nat × α) → Nat → α → List (Nat × α)
  | [], key, v => [(key, v)]
  | (k, w) :: t, key, v =>
      if k = key then (key, v) :: t else (k, w) :: alSet t key v

/-- `Map.delete`: drop every binding of `key`. -/
def alErase {α : Type} : List (Nat × α) → Nat → List (Nat × α)
  | [], _ => []
  | (k, v) :: t, key =>
      if k = key then alErase t key else (k, v) :: alErase t key

/-- The key set of an association list. -/
def alKeys {α : Type} (l : List (Nat × α)) : List Nat := l.map Prod.fst

/-! ### Message store (server/storage.ts)

A database row of the `messages` table, restricted to the columns the
status engine reads or writes.  `status` is the free-form string column
(`"sent"`, `"delivered"`, `"seen"`); timestamps are `Option Nat`. -/

structure Message where
  id : Nat
  chatId : Nat
  senderId : Nat
  status : String
  deliveredAt : Option Nat
  seenAt : Option Nat
deriving DecidableEq, Repr

/-- The row update `updateMessageStatus` writes: set `status`
unconditionally, and stamp `deliveredAt`/`seenAt` for the matching
target (storage.ts lines 201-216). -/
def applyStatusFields (status : String) (now : Nat) (m : Message) : Message :=
  if status = "delivered" then
    { m with status := status, deliveredAt := some now }
  else if status = "seen" then
    { m with status := status, seenAt := some now }
  else
    { m with status := status }

/-- `DatabaseStorage.updateMessageStatus(messageId, status, userId)`:
update the row whose `id` matches (no guard on the current status; the
`userId` argument is accepted and unused, as in the source), returning
the updated table and the updated row (`.returning()`), or `none` when
no row matched. -/
def updateRow (messageId : Nat) (status : String) (now : Nat) (m : Message) : Message :=
  if m.id = messageId then applyStatusFields status now m else m

def updateMessageStatus (msgs : List Message) (messageId : Nat) (status : String)
    (userId : Nat) (now : Nat) : List Message × Option Message :=
  let _ := userId
  (msgs.map (updateRow messageId status now),
   (msgs.find? (fun m => m.id == messageId)).map (applyStatusFields status now))

/-- `DatabaseStorage.markChatMessagesAsDelivered(chatId, userId)`: every
message of the chat with status `"sent"` not authored by `userId`
becomes `"delivered"` with `deliveredAt` stamped. -/
def deliverRow (chatId userId now : Nat) (m : Message) : Message :=
  if m.chatId = chatId ∧ m.status = "sent" ∧ m.senderId ≠ userId then
    { m with status := "delivered", deliveredAt := some now }
  else m

def markChatMessagesAsDelivered (msgs : List Message) (chatId userId now : Nat) :
    List Message :=
  msgs.map (deliverRow chatId userId now)

/-- `DatabaseStorage.markChatMessagesAsSeen(chatId, userId)`: every
message of the chat with status `"sent"` or `"delivered"` not authored
by `userId` becomes `"seen"` with `seenAt` stamped. -/
def seenRow (chatId userId now : Nat) (m : Message) : Message :=
  if m.chatId = chatId ∧ (m.status = "sent" ∨ m.status = "delivered") ∧
      m.senderId ≠ userId then
    { m with status := "seen", seenAt := some now }
  else m

def markChatMessagesAsSeen (msgs : List Message) (chatId userId now : Nat) :
    List Message :=
  msgs.map (seenRow chatId userId now)

/-- The rows `markChatMessagesAsDelivered` would match. -/
def deliveredMatches (msgs : List Message) (chatId userId : Nat) : List Message :=
  msgs.filter (fun m =>
    m.chatId = chatId ∧ m.status = "sent" ∧ m.senderId ≠ userId)

/-- The rows `markChatMessagesAsSeen` would match. -/
def seenMatches (msgs : List Message) (chatId userId : Nat) : List Message :=
  msgs.filter (fun m =>
    m.chatId = chatId ∧ (m.status = "sent" ∨ m.status = "delivered") ∧
      m.senderId ≠ userId)

/-- Status of the message with a given id, if present. -/
def statusOf (msgs : List Message) (messageId : Nat) : Option String :=
  (msgs.find? (fun m => m.id == messageId)).map Message.status

/-- Rank of a status in the `Sent → Delivered → Seen` chain. -/
def statusRank (s : String) : Nat :=
  if s = "seen" then 2 else if s = "delivered" then 1 else 0

/-- Rank of the stored status of a message id (`0` when absent). -/
def rankOf (msgs : List Message) (messageId : Nat) : Nat :=
  ((statusOf msgs messageId).map statusRank).getD 0

/-! ### WebSocket gateway (routes file: `registerRoutes`) -/

/-- Per-socket mutable fields of a `WebSocketClient`: the `userId` and
`chatId` properties set by `join_chat`, plus the transport liveness
(`readyState === WebSocket.OPEN`). -/
structure Conn where
  userId : Option Nat
  chatId : Option Nat
  isOpen : Bool
deriving DecidableEq, Repr

/-- An outbound `{type, data}` frame. -/
inductive Frame where
  | userJoined (userId : Nat)
  | userOnline (userId : Nat)
  | userLeft (userId : Option Nat)
  | userOffline (userId : Nat)
  | newMessage (chatId messageId : Nat)
  | messageStatusUpdate (messageId : Nat) (status : String) (userId : Nat)
deriving DecidableEq, Repr

/-- The gateway's shared mutable state: `wss.clients` with the
per-socket fields (keyed by an opaque connection id), the `clients`
room map (`chat_${chatId}` keys modelled by the chat id), and the
`onlineUsers` presence set (a JS `Set`, modelled as its insertion-order
element list). -/
structure ServerState where
  conns : List (Nat × Conn)
  rooms : List (Nat × List Nat)
  onlineUsers : List Nat
deriving DecidableEq, Repr

def ServerState.init : ServerState := ⟨[], [], []⟩

/-- Whether connection `c` is currently live (`readyState === OPEN`). -/
def connOpen (s : ServerState) (c : Nat) : Bool :=
  match alGet s.conns c with
  | some conn => conn.isOpen
  | none => false

/-- The member array of a room (`clients.get(chatKey) || []`). -/
def roomList (s : ServerState) (chatId : Nat) : List Nat :=
  (alGet s.rooms chatId).getD []

/-- `broadcastToChat(chatId, message)`: send the frame to every entry of
the room's member array whose socket is open, one send per array entry
(routes lines 50-57).  Returns the list of performed sends. -/
def broadcastToChat (s : ServerState) (chatId : Nat) (frame : Frame) :
    List (Nat × Frame) :=
  ((roomList s chatId).filter (fun c => connOpen s c)).map (fun c => (c, frame))

/-- `wss.clients.forEach(...)` guarded by `readyState === OPEN`: send a
frame to every open connection. -/
def globalBroadcast (s : ServerState) (frame : Frame) : List (Nat × Frame) :=
  (s.conns.filter (fun p => p.2.isOpen)).map (fun p => (p.1, frame))

/-- The `join_chat` case of the gateway's message handler (routes lines
67-102): set `ws.userId`/`ws.chatId`, add the user to `onlineUsers`,
push the socket onto the room array (creating the room entry if
missing), broadcast `user_joined` to the room and `user_online` to all
open connections.  A frame from an unknown or closed socket is a no-op
(a closed transport delivers no message events). -/
def joinChat (s : ServerState) (c chatId userId : Nat) :
    ServerState × List (Nat × Frame) :=
  match alGet s.conns c with
  | none => (s, [])
  | some conn =>
    if conn.isOpen then
      let conns := alSet s.conns c { conn with userId := some userId, chatId := some chatId }
      let onlineUsers :=
        if userId ∈ s.onlineUsers then s.onlineUsers else s.onlineUsers ++ [userId]
      let rooms := alSet s.rooms chatId (roomList s chatId ++ [c])
      let s1 : ServerState := ⟨conns, rooms, onlineUsers⟩
      (s1, broadcastToChat s1 chatId (Frame.userJoined userId) ++
           globalBroadcast s1 (Frame.userOnline userId))
    else (s, [])

/-- The state `joinChat` produces for a live connection (named for use
in equations). -/
def joinChatState (s : ServerState) (c chatId userId : Nat) (conn : Conn) : ServerState :=
  ⟨alSet s.conns c { conn with userId := some userId, chatId := some chatId },
   alSet s.rooms chatId (roomList s chatId ++ [c]),
   if userId ∈ s.onlineUsers then s.onlineUsers else s.onlineUsers ++ [userId]⟩

/-- The gateway's `close` handler (routes lines 119-165).  The transport
has already left the OPEN state when the handler runs, so the closing
socket is excluded from every `readyState === OPEN` check; afterwards
the socket is removed from `wss.clients`.  The room-cleanup block runs
under the JS truthiness guard `if (ws.chatId)` — only when `ws.chatId`
is defined and nonzero — and removes the socket (one array occurrence,
via `indexOf`/`splice`) from that room, deletes the room entry if its
array became empty, and broadcasts `user_left` to the room.  The
presence block runs under `if (ws.userId)` — again only for a defined,
nonzero user id — and, if no other open socket carries the same
`userId`, removes the user from `onlineUsers` and broadcasts
`user_offline` to all open connections; a connection identified as the
falsy user id 0 therefore skips the offline re-evaluation entirely. -/
def closeConn (s : ServerState) (c : Nat) : ServerState × List (Nat × Frame) :=
  match alGet s.conns c with
  | none => (s, [])
  | some conn =>
    if conn.isOpen then
      let s0 : ServerState := { s with conns := alSet s.conns c { conn with isOpen := false } }
      let step1 : ServerState × List (Nat × Frame) :=
        match conn.chatId with
        | some cid =>
            if cid = 0 then (s0, [])
            else
              let chatClients := roomList s0 cid
              let rooms1 :=
                if c ∈ chatClients then
                  if chatClients.erase c = [] then alErase s0.rooms cid
                  else alSet s0.rooms cid (chatClients.erase c)
                else s0.rooms
              let s1 : ServerState := { s0 with rooms := rooms1 }
              (s1, broadcastToChat s1 cid (Frame.userLeft conn.userId))
        | none => (s0, [])
      let s1 := step1.1
      let step2 : ServerState × List (Nat × Frame) :=
        match conn.userId with
        | some u =>
            if u = 0 then (s1, [])
            else
              let userStillOnline :=
                s1.conns.any (fun p => p.2.isOpen && p.2.userId == some u)
              if userStillOnline then (s1, [])
              else ({ s1 with onlineUsers := s1.onlineUsers.filter (fun v => v ≠ u) },
                    globalBroadcast s1 (Frame.userOffline u))
        | none => (s1, [])
      let s2 := step2.1
      ({ s2 with conns := alErase s2.conns c }, step1.2 ++ step2.2)
    else (s, [])

/-- Gateway events: a transport accept, a `join_chat` frame, a
transport close. -/
inductive Ev where
  | connect (c : Nat)
  | join (c chatId userId : Nat)
  | close (c : Nat)
deriving DecidableEq, Repr

/-- One gateway event, returning the new state and the emitted frames.
`connect` registers a fresh open socket (connection ids are opaque and
unique, so re-registering a known id is a no-op). -/
def stepE (s : ServerState) : Ev → ServerState × List (Nat × Frame)
  | .connect c =>
      match alGet s.conns c with
      | some _ => (s, [])
      | none => ({ s with conns := s.conns ++ [(c, ⟨none, none, true⟩)] }, [])
  | .join c chatId userId => joinChat s c chatId userId
  | .close c => closeConn s c

/-- One gateway event, state only. -/
def step (s : ServerState) (e : Ev) : ServerState := (stepE s e).1

/-- Run a trace of gateway events from the empty initial state. -/
def run (evs : List Ev) : ServerState := evs.foldl step ServerState.init

/-! ### `PATCH /api/messages/:messageId/status` (routes lines 500-540) -/

inductive PatchResult where
  | badRequest
  | notFound
  | ok (m : Message)
deriving DecidableEq, Repr

/-- Outcome of the status PATCH: the HTTP-level result, the message
table after the request, and the frames sent over the gateway. -/
structure PatchOutcome where
  result : PatchResult
  msgs : List Message
  frames : List (Nat × Frame)
deriving DecidableEq, Repr

/-- The route handler: reject with `400 Invalid status` unless the body
status is `"delivered"` or `"seen"`; run `updateMessageStatus`; answer
`404 Message not found` when no row matched; otherwise broadcast
`message_status_update` to every open connection and answer the updated
row.  The only precondition is `requireAuth`: no chat-membership or
message-ownership check appears. -/
def patchMessageStatus (s : ServerState) (msgs : List Message) (messageId : Nat)
    (status : String) (userId : Nat) (now : Nat) : PatchOutcome :=
  if status = "delivered" ∨ status = "seen" then
    match (updateMessageStatus msgs messageId status userId now).2 with
    | none => ⟨.notFound, (updateMessageStatus msgs messageId status userId now).1, []⟩
    | some m =>
        ⟨.ok m, (updateMessageStatus msgs messageId status userId now).1,
          globalBroadcast s (Frame.messageStatusUpdate messageId status userId)⟩
  else ⟨.badRequest, msgs, []⟩

/-! ### Client sync agent (`useWebSocket` hook and `pages/Chat.tsx`) -/

def maxReconnectAttempts : Nat := 5

/-- The reconnect scheduling of the `onclose` handler: when the attempt
counter is below the ceiling, first increment it, then compute the
delay `min(1000 * 2^attempts, 30000)` from the incremented counter.
Returns the new counter and the scheduled delay, or `none` when the
ceiling is reached. -/
def reconnectStep (reconnectAttempts : Nat) : Option (Nat × Nat) :=
  if reconnectAttempts < maxReconnectAttempts then
    let attempts := reconnectAttempts + 1
    some (attempts, min (1000 * 2 ^ attempts) 30000)
  else none

/-- Delays observed over successive failed attempts starting from a
counter value (`fuel` bounds the recursion). -/
def reconnectDelays : Nat → Nat → List Nat
  | 0, _ => []
  | fuel + 1, attempts =>
      match reconnectStep attempts with
      | none => []
      | some (a, d) => d :: reconnectDelays fuel a

/-- The `new_message` case of the Chat page's `onMessage` handler
(Chat.tsx lines 295-300): `[...oldMessages, message.data]` — an
unconditional append. -/
def newMessageMerge (oldMessages : List Message) (data : Message) : List Message :=
  oldMessages ++ [data]

/-- The polling-fallback merge (Chat.tsx lines 398-428): each fetched
message is prepended (`unshift`) only when `findIndex` by id fails. -/
def syncMerge (oldMessages newMessages : List Message) : List Message :=
  newMessages.foldl
    (fun updatedMessages newMessage =>
      if (updatedMessages.findIdx? (fun m => m.id == newMessage.id)).isNone then
        newMessage :: updatedMessages
      else updatedMessages)
    oldMessages

/-- Number of entries of a message list carrying a given id. -/
def countById (l : List Message) (i : Nat) : Nat :=
  (l.filter (fun m => m.id == i)).length

/-! ### Status-transition traces (for the monotonicity claim) -/

/-- One status-changing operation of the subsystem: a single-message
transition (the PATCH route's call to `updateMessageStatus`) or one of
the two bulk transitions. -/
inductive StatusOp where
  | update (messageId : Nat) (status : String) (userId now : Nat)
  | markDelivered (chatId userId now : Nat)
  | markSeen (chatId userId now : Nat)
deriving DecidableEq, Repr

def applyStatusOp (msgs : List Message) : StatusOp → List Message
  | .update messageId status userId now =>
      (updateMessageStatus msgs messageId status userId now).1
  | .markDelivered chatId userId now =>
      markChatMessagesAsDelivered msgs chatId userId now
  | .markSeen chatId userId now =>
      markChatMessagesAsSeen msgs chatId userId now

def applyStatusOps (msgs : List Message) (ops : List StatusOp) : List Message :=
  ops.foldl applyStatusOp msgs

/-- Whether a single-message transition carries a target the route
admits (`["delivered", "seen"].includes(status)`). -/
def validTarget : StatusOp → Bool
  | .update _ status _ _ => status == "delivered" || status == "seen"
  | _ => true

/-! ### Presence invariant material (for the presence claim) -/

/-- A gateway event respects a fixed connection-to-user assignment:
every `join_chat` frame of connection `c` carries `owner c`. -/
def evOk (owner : Nat → Nat) : Ev → Bool
  | .join c _ userId => userId == owner c
  | _ => true

/-- The inductive gateway invariant: connection keys are unique, every
identified connection carries its fixed owner, and `onlineUsers` holds
exactly the users with at least one open identified connection. -/
def Inv (owner : Nat → Nat) (s : ServerState) : Prop :=
  (alKeys s.conns).Nodup
  ∧ (∀ c conn, alGet s.conns c = some conn →
      conn.userId = none ∨ conn.userId = some (owner c))
  ∧ (∀ u, u ∈ s.onlineUsers ↔
      ∃ c conn, alGet s.conns c = some conn ∧ conn.isOpen = true ∧
        conn.userId = some u)

/-! ## Lemmas

### Association-list lemmas -/

@[simp] theorem alGet_nil {α : Type} (key : Nat) :
    alGet ([] : List (Nat × α)) key = none := rfl

@[simp] theorem alGet_cons {α : Type} (k : Nat) (v : α) (t : List (Nat × α)) (key : Nat) :
    alGet ((k, v) :: t) key = if k = key then some v else alGet t key := rfl

theorem alGet_alSet_self {α : Type} (l : List (Nat × α)) (key : Nat) (v : α) :
    alGet (alSet l key v) key = some v := by
  induction l with
  | nil => simp [alSet]
  | cons p t ih =>
      obtain ⟨k, w⟩ := p
      by_cases h : k = key
      · simp [alSet, h]
      · simp [alSet, h, ih]

theorem alGet_alSet_ne {α : Type} (l : List (Nat × α)) (key key' : Nat) (v : α)
    (h : key' ≠ key) : alGet (alSet l key v) key' = alGet l key' := by
  induction l with
  | nil => simp [alSet, Ne.symm h]
  | cons p t ih =>
      obtain ⟨k, w⟩ := p
      by_cases hk : k = key
      · subst hk
        simp [alSet, Ne.symm h]
      · simp [alSet, hk, ih]

theorem alGet_alErase_self {α : Type} (l : List (Nat × α)) (key : Nat) :
    alGet (alErase l key) key = none := by
  induction l with
  | nil => rfl
  | cons p t ih =>
      obtain ⟨k, w⟩ := p
      by_cases h : k = key
      · simp [alErase, h, ih]
      · simp [alErase, h, ih]

theorem alGet_alErase_ne {α : Type} (l : List (Nat × α)) (key key' : Nat)
    (h : key' ≠ key) : alGet (alErase l key) key' = alGet l key' := by
  induction l with
  | nil => rfl
  | cons p t ih =>
      obtain ⟨k, w⟩ := p
      by_cases hk : k = key
      · subst hk
        simp [alErase, Ne.symm h, ih]
      · simp [alErase, hk, ih]


theorem alGet_eq_some_mem {α : Type} {l : List (Nat × α)} {key : Nat} {v : α}
    (h : alGet l key = some v) : (key, v) ∈ l := by
  induction l with
  | nil => simp [alGet] at h
  | cons p t ih =>
      obtain ⟨k, w⟩ := p
      by_cases hk : k = key
      · subst hk
        simp [alGet] at h
        simp [h]
      · simp [alGet, hk] at h
        exact List.mem_cons_of_mem _ (ih h)

theorem alGet_eq_some_of_mem {α : Type} {l : List (Nat × α)} {key : Nat} {v : α}
    (hnd : (alKeys l).Nodup) (h : (key, v) ∈ l) : alGet l key = some v := by
  induction l with
  | nil => simp at h
  | cons p t ih =>
      obtain ⟨k, w⟩ := p
      simp only [alKeys, List.map_cons, List.nodup_cons] at hnd
      rcases List.mem_cons.mp h with h1 | h1
      · cases h1
        simp [alGet]
      · by_cases hk : k = key
        · exfalso
          subst hk
          exact hnd.1 (List.mem_map.mpr ⟨(k, v), h1, rfl⟩)
        · simp only [alGet_cons, if_neg hk]
          exact ih hnd.2 h1

theorem alGet_eq_none_iff {α : Type} (l : List (Nat × α)) (key : Nat) :
    alGet l key = none ↔ key ∉ alKeys l := by
  induction l with
  | nil => simp [alKeys]
  | cons p t ih =>
      obtain ⟨k, w⟩ := p
      by_cases hk : k = key
      · subst hk
        simp [alKeys]
      · simp [alKeys, hk, Ne.symm hk] at ih ⊢
        exact ih

theorem alGet_append {α : Type} (l1 l2 : List (Nat × α)) (key : Nat) :
    alGet (l1 ++ l2) key =
      match alGet l1 key with
      | some v => some v
      | none => alGet l2 key := by
  induction l1 with
  | nil => simp
  | cons p t ih =>
      obtain ⟨k, w⟩ := p
      by_cases hk : k = key
      · simp [hk]
      · simp [hk, ih]

theorem alKeys_alSet {α : Type} (l : List (Nat × α)) (key : Nat) (v : α) :
    alKeys (alSet l key v) =
      if key ∈ alKeys l then alKeys l else alKeys l ++ [key] := by
  induction l with
  | nil => simp [alSet, alKeys]
  | cons p t ih =>
      obtain ⟨k, w⟩ := p
      by_cases hk : k = key
      · subst hk
        simp [alSet, alKeys]
      · simp only [alSet, if_neg hk, alKeys, List.map_cons, List.mem_cons] at ih ⊢
        by_cases hmem : key ∈ List.map Prod.fst t
        · simp [hmem, Ne.symm hk, ih]
        · simp [hmem, Ne.symm hk, ih]

theorem alKeys_alErase {α : Type} (l : List (Nat × α)) (key : Nat) :
    alKeys (alErase l key) = (alKeys l).filter (fun x => x ≠ key) := by
  induction l with
  | nil => simp [alErase, alKeys]
  | cons p t ih =>
      obtain ⟨k, w⟩ := p
      simp only [decide_not, alKeys] at ih
      by_cases hk : k = key
      · subst hk
        simp [alErase, alKeys, ih, decide_not]
      · simp [alErase, alKeys, hk, ih, decide_not]

theorem alKeys_nodup_alSet {α : Type} (l : List (Nat × α)) (key : Nat) (v : α)
    (h : (alKeys l).Nodup) : (alKeys (alSet l key v)).Nodup := by
  rw [alKeys_alSet]
  by_cases hmem : key ∈ alKeys l
  · simpa [hmem] using h
  · simp only [hmem, if_neg, ite_false]
    simpa [List.nodup_append] using ⟨h, hmem⟩

theorem alKeys_nodup_alErase {α : Type} (l : List (Nat × α)) (key : Nat)
    (h : (alKeys l).Nodup) : (alKeys (alErase l key)).Nodup := by
  rw [alKeys_alErase]
  exact h.filter _

/-- With unique keys, a list-level `any` is an existence statement over
`alGet`. -/
theorem any_iff_alGet {α : Type} (l : List (Nat × α)) (f : Nat × α → Bool)
    (hnd : (alKeys l).Nodup) :
    l.any f = true ↔ ∃ k v, alGet l k = some v ∧ f (k, v) = true := by
  constructor
  · intro h
    obtain ⟨⟨k, v⟩, hmem, hf⟩ := List.any_eq_true.mp h
    exact ⟨k, v, alGet_eq_some_of_mem hnd hmem, hf⟩
  · rintro ⟨k, v, hget, hf⟩
    exact List.any_eq_true.mpr ⟨(k, v), alGet_eq_some_mem hget, hf⟩

/-! ### Message-store lemmas -/

theorem applyStatusFields_id (status : String) (now : Nat) (m : Message) :
    (applyStatusFields status now m).id = m.id := by
  unfold applyStatusFields
  split_ifs <;> rfl

theorem applyStatusFields_status (status : String) (now : Nat) (m : Message) :
    (applyStatusFields status now m).status = status := by
  unfold applyStatusFields
  split_ifs <;> rfl

theorem statusOf_map (f : Message → Message) (hf : ∀ m, (f m).id = m.id)
    (msgs : List Message) (mid : Nat) :
    statusOf (msgs.map f) mid =
      (msgs.find? (fun m => m.id == mid)).map (fun m => (f m).status) := by
  unfold statusOf
  rw [List.find?_map]
  have hp : ((fun m : Message => m.id == mid) ∘ f) = (fun m : Message => m.id == mid) := by
    funext m
    simp [Function.comp, hf]
  rw [hp, Option.map_map]
  rfl

theorem statusOf_eq_none_map (f : Message → Message) (hf : ∀ m, (f m).id = m.id)
    (msgs : List Message) (mid : Nat) (h : statusOf msgs mid = none) :
    statusOf (msgs.map f) mid = none := by
  rw [statusOf_map f hf]
  unfold statusOf at h
  rcases hfind : msgs.find? (fun m => m.id == mid) with _ | m
  · rw [hfind]
    rfl
  · rw [hfind] at h
    simp at h

theorem deliverRow_idem (chatId userId t1 t2 : Nat) (m : Message) :
    deliverRow chatId userId t2 (deliverRow chatId userId t1 m)
      = deliverRow chatId userId t1 m := by
  unfold deliverRow
  by_cases h : m.chatId = chatId ∧ m.status = "sent" ∧ m.senderId ≠ userId
  · simp only [if_pos h]
    rw [if_neg]
    rintro ⟨-, habs, -⟩
    simp at habs
  · simp only [if_neg h]

theorem seenRow_idem (chatId userId t1 t2 : Nat) (m : Message) :
    seenRow chatId userId t2 (seenRow chatId userId t1 m)
      = seenRow chatId userId t1 m := by
  unfold seenRow
  by_cases h : m.chatId = chatId ∧ (m.status = "sent" ∨ m.status = "delivered") ∧
      m.senderId ≠ userId
  · simp only [if_pos h]
    rw [if_neg]
    rintro ⟨-, habs, -⟩
    rcases habs with habs | habs <;> simp at habs
  · simp only [if_neg h]

theorem updateRow_id (messageId : Nat) (status : String) (now : Nat) (m : Message) :
    (updateRow messageId status now m).id = m.id := by
  unfold updateRow
  split_ifs with h
  · exact applyStatusFields_id status now m
  · rfl

theorem map_updateRow_of_absent (msgs : List Message) (messageId : Nat)
    (status : String) (now : Nat)
    (h : msgs.find? (fun m => m.id == messageId) = none) :
    msgs.map (updateRow messageId status now) = msgs := by
  have hall := List.find?_eq_none.mp h
  conv_rhs => rw [← List.map_id msgs]
  apply List.map_congr_left
  intro m hm
  have hne : m.id ≠ messageId := by
    intro hcontra
    exact hall m hm (by simp [hcontra])
  simp [updateRow, hne]

theorem globalBroadcast_mem (s : ServerState) (frame : Frame) (d : Nat)
    (h : connOpen s d = true) : (d, frame) ∈ globalBroadcast s frame := by
  unfold connOpen at h
  rcases hget : alGet s.conns d with _ | conn
  · rw [hget] at h
    simp at h
  · rw [hget] at h
    exact List.mem_map.mpr
      ⟨(d, conn), List.mem_filter.mpr ⟨alGet_eq_some_mem hget, h⟩, rfl⟩

theorem patch_badRequest_eq (s : ServerState) (msgs : List Message) (messageId : Nat)
    (status : String) (userId now : Nat)
    (hv : ¬(status = "delivered" ∨ status = "seen")) :
    patchMessageStatus s msgs messageId status userId now
      = ⟨PatchResult.badRequest, msgs, []⟩ := by
  unfold patchMessageStatus
  rw [if_neg hv]

theorem patch_notFound_eq (s : ServerState) (msgs : List Message) (messageId : Nat)
    (status : String) (userId now : Nat)
    (hv : status = "delivered" ∨ status = "seen")
    (hfind : msgs.find? (fun m => m.id == messageId) = none) :
    patchMessageStatus s msgs messageId status userId now
      = ⟨PatchResult.notFound, msgs, []⟩ := by
  have hsnd : (updateMessageStatus msgs messageId status userId now).2 = none := by
    simp [updateMessageStatus, hfind]
  have hfst : (updateMessageStatus msgs messageId status userId now).1 = msgs := by
    show msgs.map (updateRow messageId status now) = msgs
    exact map_updateRow_of_absent msgs messageId status now hfind
  unfold patchMessageStatus
  rw [if_pos hv, hsnd, hfst]

theorem patch_ok_eq (s : ServerState) (msgs : List Message) (messageId : Nat)
    (status : String) (userId now : Nat) (m : Message)
    (hv : status = "delivered" ∨ status = "seen")
    (hfind : msgs.find? (fun m => m.id == messageId) = some m) :
    patchMessageStatus s msgs messageId status userId now
      = ⟨PatchResult.ok (applyStatusFields status now m),
         msgs.map (updateRow messageId status now),
         globalBroadcast s (Frame.messageStatusUpdate messageId status userId)⟩ := by
  have hsnd : (updateMessageStatus msgs messageId status userId now).2
      = some (applyStatusFields status now m) := by
    simp [updateMessageStatus, hfind]
  unfold patchMessageStatus
  rw [if_pos hv, hsnd]
  rfl

theorem statusOf_map_updateRow (msgs : List Message) (messageId : Nat)
    (status : String) (now : Nat) (m : Message)
    (hfind : msgs.find? (fun m => m.id == messageId) = some m) :
    statusOf (msgs.map (updateRow messageId status now)) messageId = some status := by
  rw [statusOf_map (updateRow messageId status now) (updateRow_id messageId status now)]
  rw [hfind]
  have hid : m.id = messageId := by
    have := List.find?_some hfind
    simpa using this
  simp [updateRow, hid, applyStatusFields_status]

theorem deliverRow_id (chatId userId now : Nat) (m : Message) :
    (deliverRow chatId userId now m).id = m.id := by
  unfold deliverRow
  split_ifs <;> rfl

theorem seenRow_id (chatId userId now : Nat) (m : Message) :
    (seenRow chatId userId now m).id = m.id := by
  unfold seenRow
  split_ifs <;> rfl

theorem rankOf_le_markDelivered (msgs : List Message) (chatId userId now mid : Nat) :
    rankOf msgs mid ≤ rankOf (markChatMessagesAsDelivered msgs chatId userId now) mid := by
  unfold rankOf markChatMessagesAsDelivered
  rw [statusOf_map (deliverRow chatId userId now) (deliverRow_id chatId userId now)]
  unfold statusOf
  rcases hfind : msgs.find? (fun m => m.id == mid) with _ | m
  · simp [hfind]
  · rw [hfind]
    simp only [Option.map_some', Option.getD_some]
    unfold deliverRow
    by_cases h : m.chatId = chatId ∧ m.status = "sent" ∧ m.senderId ≠ userId
    · rw [if_pos h, h.2.1]
      simp [statusRank]
    · rw [if_neg h]

theorem rankOf_le_markSeen (msgs : List Message) (chatId userId now mid : Nat) :
    rankOf msgs mid ≤ rankOf (markChatMessagesAsSeen msgs chatId userId now) mid := by
  unfold rankOf markChatMessagesAsSeen
  rw [statusOf_map (seenRow chatId userId now) (seenRow_id chatId userId now)]
  unfold statusOf
  rcases hfind : msgs.find? (fun m => m.id == mid) with _ | m
  · simp [hfind]
  · rw [hfind]
    simp only [Option.map_some', Option.getD_some]
    unfold seenRow
    by_cases h : m.chatId = chatId ∧ (m.status = "sent" ∨ m.status = "delivered") ∧
        m.senderId ≠ userId
    · rw [if_pos h]
      rcases h.2.1 with hs | hs <;> rw [hs] <;> simp [statusRank]
    · rw [if_neg h]

theorem statusOp_not_sent (op : StatusOp) (msgs : List Message) (mid : Nat)
    (hop : validTarget op = true) (h : statusOf msgs mid ≠ some "sent") :
    statusOf (applyStatusOp msgs op) mid ≠ some "sent" := by
  cases op with
  | update messageId status userId now =>
      show statusOf (msgs.map (updateRow messageId status now)) mid ≠ some "sent"
      rw [statusOf_map (updateRow messageId status now) (updateRow_id messageId status now)]
      rcases hfind : msgs.find? (fun m => m.id == mid) with _ | m
      · simp [hfind]
      · rw [hfind]
        unfold statusOf at h
        rw [hfind] at h
        simp only [Option.map_some', ne_eq, Option.some.injEq] at h
        have hst : status ≠ "sent" := by
          simp only [validTarget, Bool.or_eq_true, beq_iff_eq] at hop
          rcases hop with hop | hop <;> simp [hop]
        simp only [Option.map_some', ne_eq, Option.some.injEq]
        unfold updateRow
        split_ifs with hid
        · rw [applyStatusFields_status]
          exact hst
        · exact h
  | markDelivered chatId userId now =>
      show statusOf (msgs.map (deliverRow chatId userId now)) mid ≠ some "sent"
      rw [statusOf_map (deliverRow chatId userId now) (deliverRow_id chatId userId now)]
      rcases hfind : msgs.find? (fun m => m.id == mid) with _ | m
      · simp [hfind]
      · rw [hfind]
        unfold statusOf at h
        rw [hfind] at h
        simp only [Option.map_some', ne_eq, Option.some.injEq] at h
        simp only [Option.map_some', ne_eq, Option.some.injEq]
        unfold deliverRow
        split_ifs with hcond
        · simp
        · exact h
  | markSeen chatId userId now =>
      show statusOf (msgs.map (seenRow chatId userId now)) mid ≠ some "sent"
      rw [statusOf_map (seenRow chatId userId now) (seenRow_id chatId userId now)]
      rcases hfind : msgs.find? (fun m => m.id == mid) with _ | m
      · simp [hfind]
      · rw [hfind]
        unfold statusOf at h
        rw [hfind] at h
        simp only [Option.map_some', ne_eq, Option.some.injEq] at h
        simp only [Option.map_some', ne_eq, Option.some.injEq]
        unfold seenRow
        split_ifs with hcond
        · simp
        · exact h

theorem statusOps_not_sent (ops : List StatusOp) (msgs : List Message) (mid : Nat)
    (hops : ops.all validTarget = true) (h : statusOf msgs mid ≠ some "sent") :
    statusOf (applyStatusOps msgs ops) mid ≠ some "sent" := by
  induction ops generalizing msgs with
  | nil => exact h
  | cons op t ih =>
      rw [List.all_cons, Bool.and_eq_true] at hops
      exact ih (applyStatusOp msgs op) hops.2
        (statusOp_not_sent op msgs mid hops.1 h)

/-! ### Gateway lemmas -/

theorem joinChat_eq (s : ServerState) (c chatId userId : Nat) (conn : Conn)
    (hget : alGet s.conns c = some conn) (hopen : conn.isOpen = true) :
    joinChat s c chatId userId =
      (joinChatState s c chatId userId conn,
       broadcastToChat (joinChatState s c chatId userId conn) chatId
           (Frame.userJoined userId)
         ++ globalBroadcast (joinChatState s c chatId userId conn)
           (Frame.userOnline userId)) := by
  unfold joinChat joinChatState
  rw [hget]
  dsimp only
  rw [if_pos hopen]

theorem roomList_joinChat_self (s : ServerState) (c chatId userId : Nat) (conn : Conn)
    (hget : alGet s.conns c = some conn) (hopen : conn.isOpen = true) :
    roomList (joinChat s c chatId userId).1 chatId = roomList s chatId ++ [c] := by
  rw [joinChat_eq s c chatId userId conn hget hopen]
  unfold roomList joinChatState
  rw [alGet_alSet_self]
  rfl

theorem roomList_joinChat_other (s : ServerState) (c chatId userId : Nat) (conn : Conn)
    (hget : alGet s.conns c = some conn) (hopen : conn.isOpen = true)
    (r : Nat) (hr : r ≠ chatId) :
    roomList (joinChat s c chatId userId).1 r = roomList s r := by
  rw [joinChat_eq s c chatId userId conn hget hopen]
  unfold roomList joinChatState
  rw [alGet_alSet_ne _ _ _ _ hr]

theorem connOpen_joinChatState (s : ServerState) (c chatId userId : Nat) (conn : Conn)
    (hget : alGet s.conns c = some conn) (hopen : conn.isOpen = true)
    (d : Nat) (hd : connOpen s d = true) :
    connOpen (joinChatState s c chatId userId conn) d = true := by
  unfold connOpen at hd
  unfold connOpen joinChatState
  by_cases hdc : d = c
  · subst hdc
    rw [alGet_alSet_self]
    exact hopen
  · rw [alGet_alSet_ne _ _ _ _ hdc]
    exact hd

theorem count_filter_map_pair (l : List Nat) (p : Nat → Bool) (frame : Frame) (c : Nat) :
    ((l.filter p).map (fun d => (d, frame))).count (c, frame)
      = if p c then l.count c else 0 := by
  induction l with
  | nil => simp
  | cons d t ih =>
      rw [List.filter_cons]
      by_cases hp : p d
      · rw [if_pos hp, List.map_cons]
        by_cases hd : d = c
        · subst hd
          rw [List.count_cons, ih]
          simp [List.count_cons, hp]
        · rw [List.count_cons, ih]
          have h1 : ¬((d, frame) = (c, frame)) := by
            simp [hd]
          simp [List.count_cons, hd, h1]
      · rw [if_neg hp, ih]
        by_cases hd : d = c
        · subst hd
          simp [hp]
        · simp [List.count_cons, hd]

theorem closeConn_state_conns (s : ServerState) (c : Nat) (conn : Conn)
    (hget : alGet s.conns c = some conn) (hopen : conn.isOpen = true) :
    (closeConn s c).1.conns
      = alErase (alSet s.conns c { conn with isOpen := false }) c := by
  obtain ⟨uid, cid, op⟩ := conn
  have hop : op = true := hopen
  subst hop
  unfold closeConn
  rw [hget]
  dsimp only
  cases cid <;> cases uid <;> dsimp only <;> (repeat' split) <;> rfl

theorem closeConn_state_onlineUsers (s : ServerState) (c : Nat) (conn : Conn)
    (hget : alGet s.conns c = some conn) (hopen : conn.isOpen = true) :
    (closeConn s c).1.onlineUsers =
      match conn.userId with
      | none => s.onlineUsers
      | some u =>
          if u = 0 then s.onlineUsers
          else if (alSet s.conns c { conn with isOpen := false }).any
              (fun p => p.2.isOpen && p.2.userId == some u)
          then s.onlineUsers
          else s.onlineUsers.filter (fun v => v ≠ u) := by
  obtain ⟨uid, cid, op⟩ := conn
  have hop : op = true := hopen
  subst hop
  unfold closeConn
  rw [hget]
  dsimp only
  cases cid <;> cases uid <;> dsimp only <;> (repeat' split) <;> rfl

theorem inv_init (owner : Nat → Nat) : Inv owner ServerState.init := by
  refine ⟨?_, ?_, ?_⟩
  · simp [ServerState.init, alKeys]
  · intro c conn h
    simp [ServerState.init, alGet] at h
  · intro u
    constructor
    · intro h
      simp [ServerState.init] at h
    · rintro ⟨c, conn, hget, -, -⟩
      simp [ServerState.init, alGet] at hget

theorem inv_step (owner : Nat → Nat) (howner : ∀ c0, owner c0 ≠ 0)
    (s : ServerState) (e : Ev)
    (h : Inv owner s) (he : evOk owner e = true) : Inv owner (step s e) := by
  obtain ⟨hnd, hown, hiff⟩ := h
  cases e with
  | connect c =>
      show Inv owner (stepE s (Ev.connect c)).1
      unfold stepE
      dsimp only
      rcases hget : alGet s.conns c with _ | conn
      · dsimp only
        refine ⟨?_, ?_, ?_⟩
        · have hmem : c ∉ alKeys s.conns := (alGet_eq_none_iff _ _).mp hget
          simp only [alKeys, List.map_append, List.map_cons, List.map_nil,
            List.nodup_append]
          refine ⟨hnd, List.nodup_singleton c, ?_⟩
          intro x hx hx1
          simp only [List.mem_singleton] at hx1
          subst hx1
          exact hmem hx
        · intro d connd hgetd
          rw [alGet_append] at hgetd
          rcases hcase : alGet s.conns d with _ | cv
          · rw [hcase] at hgetd
            dsimp only at hgetd
            rw [alGet_cons] at hgetd
            by_cases hcd : c = d
            · rw [if_pos hcd] at hgetd
              injection hgetd with h1
              rw [← h1]
              exact Or.inl rfl
            · rw [if_neg hcd] at hgetd
              exact absurd hgetd (by simp [alGet])
          · rw [hcase] at hgetd
            dsimp only at hgetd
            injection hgetd with h1
            subst h1
            exact hown d cv hcase
        · intro u
          rw [hiff u]
          constructor
          · rintro ⟨d, connd, hgetd, hopend, huidd⟩
            refine ⟨d, connd, ?_, hopend, huidd⟩
            rw [alGet_append, hgetd]
          · rintro ⟨d, connd, hgetd, hopend, huidd⟩
            rw [alGet_append] at hgetd
            rcases hcase : alGet s.conns d with _ | cv
            · rw [hcase] at hgetd
              dsimp only at hgetd
              rw [alGet_cons] at hgetd
              by_cases hcd : c = d
              · rw [if_pos hcd] at hgetd
                injection hgetd with h1
                rw [← h1] at huidd
                simp at huidd
              · rw [if_neg hcd] at hgetd
                exact absurd hgetd (by simp [alGet])
            · rw [hcase] at hgetd
              dsimp only at hgetd
              injection hgetd with h1
              subst h1
              exact ⟨d, cv, hcase, hopend, huidd⟩
      · dsimp only
        exact ⟨hnd, hown, hiff⟩
  | join c chatId userId =>
      have huid : userId = owner c := by
        simpa [evOk] using he
      show Inv owner (joinChat s c chatId userId).1
      rcases hget : alGet s.conns c with _ | conn
      · unfold joinChat
        rw [hget]
        exact ⟨hnd, hown, hiff⟩
      · by_cases hopen : conn.isOpen = true
        · rw [joinChat_eq s c chatId userId conn hget hopen]
          unfold joinChatState
          refine ⟨alKeys_nodup_alSet _ _ _ hnd, ?_, ?_⟩
          · intro d connd hgetd
            dsimp only at hgetd
            by_cases hdc : d = c
            · subst hdc
              rw [alGet_alSet_self] at hgetd
              injection hgetd with h1
              rw [← h1]
              exact Or.inr (by rw [huid])
            · rw [alGet_alSet_ne _ _ _ _ hdc] at hgetd
              exact hown d connd hgetd
          · intro v
            constructor
            · intro hv
              by_cases hvu : v = userId
              · exact ⟨c, { conn with userId := some userId, chatId := some chatId },
                  alGet_alSet_self _ _ _, hopen, by rw [hvu]⟩
              · have hvold : v ∈ s.onlineUsers := by
                  by_cases hmem : userId ∈ s.onlineUsers
                  · rwa [if_pos hmem] at hv
                  · rw [if_neg hmem] at hv
                    rcases List.mem_append.mp hv with h1 | h1
                    · exact h1
                    · simp only [List.mem_singleton] at h1
                      exact absurd h1 hvu
                obtain ⟨d, connd, hgetd, hopend, huidd⟩ := (hiff v).mp hvold
                by_cases hdc : d = c
                · subst hdc
                  rw [hget] at hgetd
                  injection hgetd with h1
                  subst h1
                  rcases hown d conn hget with h0 | h0
                  · rw [h0] at huidd
                    exact absurd huidd (by simp)
                  · rw [h0] at huidd
                    injection huidd with h2
                    exact absurd (h2.symm.trans huid.symm) hvu
                · exact ⟨d, connd, by
                    rw [alGet_alSet_ne _ _ _ _ hdc]
                    exact hgetd, hopend, huidd⟩
            · rintro ⟨d, connd, hgetd, hopend, huidd⟩
              by_cases hdc : d = c
              · subst hdc
                rw [alGet_alSet_self] at hgetd
                injection hgetd with h1
                rw [← h1] at huidd
                simp only [Option.some.injEq] at huidd
                rw [huidd]
                by_cases hmem : v ∈ s.onlineUsers
                · rw [if_pos hmem]
                  exact hmem
                · rw [if_neg hmem]
                  exact List.mem_append_right _ (List.mem_singleton.mpr rfl)
              · rw [alGet_alSet_ne _ _ _ _ hdc] at hgetd
                have hvold : v ∈ s.onlineUsers :=
                  (hiff v).mpr ⟨d, connd, hgetd, hopend, huidd⟩
                by_cases hmem : userId ∈ s.onlineUsers
                · rw [if_pos hmem]
                  exact hvold
                · rw [if_neg hmem]
                  exact List.mem_append_left _ hvold
        · unfold joinChat
          rw [hget]
          dsimp only
          rw [if_neg hopen]
          exact ⟨hnd, hown, hiff⟩
  | close c =>
      show Inv owner (closeConn s c).1
      rcases hget : alGet s.conns c with _ | conn
      · unfold closeConn
        rw [hget]
        exact ⟨hnd, hown, hiff⟩
      · by_cases hopen : conn.isOpen = true
        · have hconns := closeConn_state_conns s c conn hget hopen
          have honline := closeConn_state_onlineUsers s c conn hget hopen
          have hnd2 : (alKeys (alSet s.conns c { conn with isOpen := false })).Nodup :=
            alKeys_nodup_alSet _ _ _ hnd
          have hR : ∀ v, (∃ d connd, alGet (closeConn s c).1.conns d = some connd
                ∧ connd.isOpen = true ∧ connd.userId = some v)
              ↔ (∃ d connd, d ≠ c ∧ alGet s.conns d = some connd
                ∧ connd.isOpen = true ∧ connd.userId = some v) := by
            intro v
            constructor
            · rintro ⟨d, connd, hg, ho, hu⟩
              rw [hconns] at hg
              by_cases hdc : d = c
              · subst hdc
                rw [alGet_alErase_self] at hg
                exact absurd hg (by simp)
              · rw [alGet_alErase_ne _ _ _ hdc, alGet_alSet_ne _ _ _ _ hdc] at hg
                exact ⟨d, connd, hdc, hg, ho, hu⟩
            · rintro ⟨d, connd, hdc, hg, ho, hu⟩
              refine ⟨d, connd, ?_, ho, hu⟩
              rw [hconns, alGet_alErase_ne _ _ _ hdc, alGet_alSet_ne _ _ _ _ hdc]
              exact hg
          have hEE : ∀ v, conn.userId ≠ some v →
              ((∃ d connd, alGet s.conns d = some connd
                  ∧ connd.isOpen = true ∧ connd.userId = some v)
                ↔ (∃ d connd, d ≠ c ∧ alGet s.conns d = some connd
                  ∧ connd.isOpen = true ∧ connd.userId = some v)) := by
            intro v hvc
            constructor
            · rintro ⟨d, connd, hg, ho, hu⟩
              by_cases hdc : d = c
              · subst hdc
                rw [hget] at hg
                injection hg with h1
                subst h1
                exact absurd hu hvc
              · exact ⟨d, connd, hdc, hg, ho, hu⟩
            · rintro ⟨d, connd, hdc, hg, ho, hu⟩
              exact ⟨d, connd, hg, ho, hu⟩
          have hany : ∀ u, ((alSet s.conns c { conn with isOpen := false }).any
                (fun p => p.2.isOpen && p.2.userId == some u) = true)
              ↔ (∃ d connd, d ≠ c ∧ alGet s.conns d = some connd
                ∧ connd.isOpen = true ∧ connd.userId = some u) := by
            intro u
            rw [any_iff_alGet _ _ hnd2]
            constructor
            · rintro ⟨k, cv, hg, hf⟩
              simp only [Bool.and_eq_true, beq_iff_eq] at hf
              by_cases hkc : k = c
              · subst hkc
                rw [alGet_alSet_self] at hg
                injection hg with h1
                rw [← h1] at hf
                exact absurd hf.1 (by simp)
              · rw [alGet_alSet_ne _ _ _ _ hkc] at hg
                exact ⟨k, cv, hkc, hg, hf.1, hf.2⟩
            · rintro ⟨d, connd, hdc, hg, ho, hu⟩
              refine ⟨d, connd, ?_, ?_⟩
              · rw [alGet_alSet_ne _ _ _ _ hdc]
                exact hg
              · simp [ho, hu]
          refine ⟨?_, ?_, ?_⟩
          · rw [hconns]
            exact alKeys_nodup_alErase _ _ hnd2
          · intro d connd hgetd
            rw [hconns] at hgetd
            by_cases hdc : d = c
            · subst hdc
              rw [alGet_alErase_self] at hgetd
              exact absurd hgetd (by simp)
            · rw [alGet_alErase_ne _ _ _ hdc, alGet_alSet_ne _ _ _ _ hdc] at hgetd
              exact hown d connd hgetd
          · intro v
            rcases huc : conn.userId with _ | u
            · simp only [huc] at honline
              rw [hR v, honline]
              rw [← hEE v (by rw [huc]; simp)]
              exact hiff v
            · simp only [huc] at honline hany
              have hu0 : u ≠ 0 := by
                rcases hown c conn hget with h0 | h0
                · rw [huc] at h0
                  exact absurd h0 (by simp)
                · rw [huc] at h0
                  injection h0 with h1
                  rw [h1]
                  exact howner c
              rw [if_neg hu0] at honline
              rw [hR v, honline]
              split
              · rename_i hstill
                by_cases hvu : v = u
                · constructor
                  · intro _
                    rw [hvu]
                    exact (hany u).mp hstill
                  · intro _
                    rw [hvu]
                    exact (hiff u).mpr ⟨c, conn, hget, hopen, huc⟩
                · rw [hiff v]
                  exact hEE v (by rw [huc]; simp [Ne.symm hvu])
              · rename_i hstill
                constructor
                · intro hv
                  rw [List.mem_filter] at hv
                  have hvne : v ≠ u := by simpa using hv.2
                  exact (hEE v (by rw [huc]; simp [Ne.symm hvne])).mp ((hiff v).mp hv.1)
                · intro hE
                  by_cases hvu : v = u
                  · rw [hvu] at hE
                    exact absurd ((hany u).mpr hE) hstill
                  · rw [List.mem_filter]
                    refine ⟨(hiff v).mpr ?_, by simpa using hvu⟩
                    exact (hEE v (by rw [huc]; simp [Ne.symm hvu])).mpr hE
        · unfold closeConn
          rw [hget]
          dsimp only
          rw [if_neg hopen]
          exact ⟨hnd, hown, hiff⟩

theorem inv_run (owner : Nat → Nat) (howner : ∀ c0, owner c0 ≠ 0) (evs : List Ev)
    (hall : evs.all (evOk owner) = true) : Inv owner (run evs) := by
  suffices hgen : ∀ (l : List Ev) (s : ServerState), Inv owner s →
      l.all (evOk owner) = true → Inv owner (l.foldl step s) by
    exact hgen evs ServerState.init (inv_init owner) hall
  intro l
  induction l with
  | nil =>
      intro s hs _
      exact hs
  | cons e t ih =>
      intro s hs hall
      rw [List.all_cons, Bool.and_eq_true] at hall
      exact ih (step s e) (inv_step owner howner s e hs hall.1) hall.2

/-- The close handler's JS truthiness guard `if (ws.userId)`: closing
the only connection identified as the falsy user id 0 leaves 0 in
`onlineUsers` although no connection remains. -/
theorem closeConn_skips_user_zero :
    (run [Ev.connect 7, Ev.join 7 1 0, Ev.close 7]).onlineUsers = [0]
    ∧ (run [Ev.connect 7, Ev.join 7 1 0, Ev.close 7]).conns = [] := by
  decide

/-! ## Claim theorems -/

/-- C6, counterexample: the claim says the reconnect delay is computed
from the attempt counter value before it is incremented, so a client at
counter 0 would wait `min(1000 * 2^0, 30000) = 1000` ms.  The code
increments first: at counter 0 it schedules 2000 ms, not 1000 ms. -/
theorem C6_counterexample :
    reconnectStep 0 = some (1, 2000) ∧ min (1000 * 2 ^ 0) 30000 = 1000 ∧
      (2000 : Nat) ≠ 1000 := by
  decide

/-- C6, amended: on close with the counter below the ceiling of 5, the
client increments the counter first and schedules the reconnect after
`min(1000 * 2^(attempt+1), 30000)` ms, computed from the incremented
value; a client starting at counter 0 observes the delay sequence
2s, 4s, 8s, 16s, 30s over five failed attempts; at the ceiling no
reconnect is scheduled. -/
theorem C6_reconnect_backoff :
    reconnectDelays maxReconnectAttempts 0 = [2000, 4000, 8000, 16000, 30000]
    ∧ (∀ a, a < maxReconnectAttempts →
        reconnectStep a = some (a + 1, min (1000 * 2 ^ (a + 1)) 30000))
    ∧ (∀ a, maxReconnectAttempts ≤ a → reconnectStep a = none) := by
  refine ⟨by decide, ?_, ?_⟩
  · intro a ha
    simp [reconnectStep, ha]
  · intro a ha
    simp [reconnectStep, Nat.not_lt.mpr ha]

/-- C6, witness for the amended theorem at counters 0 and 5. -/
theorem C6_reconnect_backoff_witness :
    reconnectStep 0 = some (0 + 1, min (1000 * 2 ^ (0 + 1)) 30000) ∧
      reconnectStep 5 = none :=
  ⟨C6_reconnect_backoff.2.1 0 (by decide), C6_reconnect_backoff.2.2 5 (by decide)⟩

/-- C7, counterexample: the push-channel `new_message` handler appends
unconditionally, so merging a message whose id 501 is already present
leaves two entries for that id, not one. -/
theorem C7_counterexample :
    newMessageMerge [⟨501, 7, 1, "sent", none, none⟩] ⟨501, 7, 1, "sent", none, none⟩
        = [⟨501, 7, 1, "sent", none, none⟩, ⟨501, 7, 1, "sent", none, none⟩]
    ∧ countById
        (newMessageMerge [⟨501, 7, 1, "sent", none, none⟩]
          ⟨501, 7, 1, "sent", none, none⟩) 501 = 2 := by
  decide

/-- C7, amended: only the polling-fallback merge is duplicate-safe: a
fetched message whose identifier already occurs in the list is skipped,
so the entry count of every identifier already present is unchanged;
the push-channel `new_message` handler appends unconditionally. -/
theorem C7_sync_merge_dedup :
    ∀ (old news : List Message) (i : Nat),
      i ∈ old.map Message.id →
      countById (syncMerge old news) i = countById old i := by
  intro old news
  induction news generalizing old with
  | nil =>
      intro i _
      rfl
  | cons n t ih =>
      intro i hi
      have hstep : syncMerge old (n :: t) =
          syncMerge
            (if (old.findIdx? (fun m => m.id == n.id)).isNone then n :: old else old)
            t := rfl
      rw [hstep]
      by_cases hfind : (old.findIdx? (fun m => m.id == n.id)).isNone = true
      · have hnone : old.findIdx? (fun m => m.id == n.id) = none :=
          Option.isNone_iff_eq_none.mp hfind
        have hall := List.findIdx?_eq_none_iff.mp hnone
        obtain ⟨m, hm, hmi⟩ := List.mem_map.mp hi
        have hne : n.id ≠ i := by
          intro hcontra
          have := hall m hm
          rw [hmi] at this
          simp [hcontra] at this
        rw [if_pos hfind]
        have hcount : countById (n :: old) i = countById old i := by
          simp [countById, List.filter_cons, hne]
        rw [ih (n :: old) i (by simp [hmi ▸ List.mem_map_of_mem Message.id hm]), hcount]
      · rw [if_neg hfind]
        exact ih old i hi

/-- C7, witness for the amended theorem: id 501 present once stays
present once after a fallback merge that offers it again. -/
theorem C7_sync_merge_dedup_witness :
    countById
        (syncMerge [⟨501, 7, 1, "sent", none, none⟩] [⟨501, 7, 2, "seen", none, none⟩])
        501
      = countById [(⟨501, 7, 1, "sent", none, none⟩ : Message)] 501 :=
  C7_sync_merge_dedup [⟨501, 7, 1, "sent", none, none⟩]
    [⟨501, 7, 2, "seen", none, none⟩] 501 (by decide)

/-- C8: the bulk transitions are idempotent.  A second
`markChatMessagesAsDelivered` (resp. `markChatMessagesAsSeen`) for the
same chat and acting user — at any later timestamp — matches no rows
and returns the table unchanged, statuses and timestamps included. -/
theorem C8_bulk_marks_idempotent :
    ∀ (msgs : List Message) (chatId userId t1 t2 : Nat),
      markChatMessagesAsDelivered (markChatMessagesAsDelivered msgs chatId userId t1)
          chatId userId t2
        = markChatMessagesAsDelivered msgs chatId userId t1
      ∧ deliveredMatches (markChatMessagesAsDelivered msgs chatId userId t1)
          chatId userId = []
      ∧ markChatMessagesAsSeen (markChatMessagesAsSeen msgs chatId userId t1)
          chatId userId t2
        = markChatMessagesAsSeen msgs chatId userId t1
      ∧ seenMatches (markChatMessagesAsSeen msgs chatId userId t1) chatId userId = [] := by
  intro msgs chatId userId t1 t2
  refine ⟨?_, ?_, ?_, ?_⟩
  · unfold markChatMessagesAsDelivered
    rw [List.map_map]
    apply List.map_congr_left
    intro m _
    exact deliverRow_idem chatId userId t1 t2 m
  · unfold deliveredMatches markChatMessagesAsDelivered
    rw [List.filter_eq_nil_iff]
    intro a ha
    obtain ⟨m, _, rfl⟩ := List.mem_map.mp ha
    unfold deliverRow
    by_cases h : m.chatId = chatId ∧ m.status = "sent" ∧ m.senderId ≠ userId
    · simp only [if_pos h]
      simp
    · simp only [if_neg h]
      simpa using h
  · unfold markChatMessagesAsSeen
    rw [List.map_map]
    apply List.map_congr_left
    intro m _
    exact seenRow_idem chatId userId t1 t2 m
  · unfold seenMatches markChatMessagesAsSeen
    rw [List.filter_eq_nil_iff]
    intro a ha
    obtain ⟨m, _, rfl⟩ := List.mem_map.mp ha
    unfold seenRow
    by_cases h : m.chatId = chatId ∧ (m.status = "sent" ∨ m.status = "delivered") ∧
        m.senderId ≠ userId
    · simp only [if_pos h]
      simp
    · simp only [if_neg h]
      simpa using h

/-- C9: the single-message status endpoint rejects any target outside
`{"delivered", "seen"}` with an invalid-status error and no mutation or
broadcast; with a valid target and an unknown message id it answers
not-found, again without mutation or broadcast; only with a valid
target and an existing message does it apply the status and the
corresponding timestamp and emit the `message_status_update` event. -/
theorem C9_status_endpoint :
    ∀ (s : ServerState) (msgs : List Message) (messageId : Nat) (status : String)
      (userId now : Nat),
      (¬(status = "delivered" ∨ status = "seen") →
        patchMessageStatus s msgs messageId status userId now
          = ⟨PatchResult.badRequest, msgs, []⟩)
      ∧ ((status = "delivered" ∨ status = "seen") →
          msgs.find? (fun m => m.id == messageId) = none →
          patchMessageStatus s msgs messageId status userId now
            = ⟨PatchResult.notFound, msgs, []⟩)
      ∧ (∀ m, (status = "delivered" ∨ status = "seen") →
          msgs.find? (fun m => m.id == messageId) = some m →
          patchMessageStatus s msgs messageId status userId now
            = ⟨PatchResult.ok (applyStatusFields status now m),
               msgs.map (updateRow messageId status now),
               globalBroadcast s (Frame.messageStatusUpdate messageId status userId)⟩
          ∧ statusOf (patchMessageStatus s msgs messageId status userId now).msgs
              messageId = some status
          ∧ (status = "delivered" →
              (applyStatusFields status now m).deliveredAt = some now)
          ∧ (status = "seen" → (applyStatusFields status now m).seenAt = some now)) := by
  intro s msgs messageId status userId now
  refine ⟨?_, ?_, ?_⟩
  · intro hv
    exact patch_badRequest_eq s msgs messageId status userId now hv
  · intro hv hfind
    exact patch_notFound_eq s msgs messageId status userId now hv hfind
  · intro m hv hfind
    have heq := patch_ok_eq s msgs messageId status userId now m hv hfind
    refine ⟨heq, ?_, ?_, ?_⟩
    · rw [heq]
      exact statusOf_map_updateRow msgs messageId status now m hfind
    · intro hst
      simp [applyStatusFields, hst]
    · intro hst
      simp [applyStatusFields, hst]

/-- C9, witness: the three branches at concrete inputs — an invalid
target `"read"`, a valid target on an absent id, and a valid target on
a stored message. -/
theorem C9_status_endpoint_witness :
    patchMessageStatus ServerState.init [⟨1, 7, 2, "sent", none, none⟩] 1 "read" 9 10
        = ⟨PatchResult.badRequest, [⟨1, 7, 2, "sent", none, none⟩], []⟩
    ∧ patchMessageStatus ServerState.init [⟨1, 7, 2, "sent", none, none⟩] 3 "seen" 9 10
        = ⟨PatchResult.notFound, [⟨1, 7, 2, "sent", none, none⟩], []⟩
    ∧ statusOf
        (patchMessageStatus ServerState.init [⟨1, 7, 2, "sent", none, none⟩]
          1 "seen" 9 10).msgs 1 = some "seen" :=
  ⟨(C9_status_endpoint ServerState.init [⟨1, 7, 2, "sent", none, none⟩] 1 "read" 9 10).1
      (by decide),
   (C9_status_endpoint ServerState.init [⟨1, 7, 2, "sent", none, none⟩] 3 "seen" 9 10).2.1
      (by decide) (by decide),
   ((C9_status_endpoint ServerState.init [⟨1, 7, 2, "sent", none, none⟩] 1 "seen" 9 10).2.2
      ⟨1, 7, 2, "sent", none, none⟩ (by decide) (by decide)).2.1⟩

/-- C10: the endpoint enforces no chat-membership or ownership
precondition: for every acting user — the message's own author or a
user unrelated to the chat alike — a valid-target request on an
existing message succeeds, the resulting table does not depend on the
acting user, the message's status becomes the target, and the
`message_status_update` broadcast reaches every open connection. -/
theorem C10_no_membership_guard :
    ∀ (s : ServerState) (msgs : List Message) (messageId : Nat) (status : String)
      (userA userB now : Nat) (m : Message),
      (status = "delivered" ∨ status = "seen") →
      msgs.find? (fun x => x.id == messageId) = some m →
      (patchMessageStatus s msgs messageId status userA now).result
          = PatchResult.ok (applyStatusFields status now m)
      ∧ (patchMessageStatus s msgs messageId status userA now).msgs
          = (patchMessageStatus s msgs messageId status userB now).msgs
      ∧ statusOf (patchMessageStatus s msgs messageId status userA now).msgs messageId
          = some status
      ∧ (∀ d, connOpen s d = true →
          (d, Frame.messageStatusUpdate messageId status userA)
            ∈ (patchMessageStatus s msgs messageId status userA now).frames) := by
  intro s msgs messageId status userA userB now m hv hfind
  have heqA := patch_ok_eq s msgs messageId status userA now m hv hfind
  have heqB := patch_ok_eq s msgs messageId status userB now m hv hfind
  refine ⟨?_, ?_, ?_, ?_⟩
  · rw [heqA]
  · rw [heqA, heqB]
  · rw [heqA]
    exact statusOf_map_updateRow msgs messageId status now m hfind
  · intro d hd
    rw [heqA]
    exact globalBroadcast_mem s (Frame.messageStatusUpdate messageId status userA) d hd

/-- C10, witness: user 9 (neither author nor member of any chat, and
also the author's id 2 as second user) marks message 1 seen on a server
with one open connection `0`. -/
theorem C10_no_membership_guard_witness :
    (patchMessageStatus (run [Ev.connect 0]) [⟨1, 7, 2, "sent", none, none⟩]
        1 "seen" 9 10).result
      = PatchResult.ok (applyStatusFields "seen" 10 ⟨1, 7, 2, "sent", none, none⟩)
    ∧ (0, Frame.messageStatusUpdate 1 "seen" 9)
        ∈ (patchMessageStatus (run [Ev.connect 0]) [⟨1, 7, 2, "sent", none, none⟩]
            1 "seen" 9 10).frames :=
  ⟨((C10_no_membership_guard (run [Ev.connect 0]) [⟨1, 7, 2, "sent", none, none⟩]
      1 "seen" 9 2 10 ⟨1, 7, 2, "sent", none, none⟩ (Or.inr rfl) (by decide)).1),
   ((C10_no_membership_guard (run [Ev.connect 0]) [⟨1, 7, 2, "sent", none, none⟩]
      1 "seen" 9 2 10 ⟨1, 7, 2, "sent", none, none⟩ (Or.inr rfl) (by decide)).2.2.2 0
      (by decide))⟩

/-- C1, counterexample: a message already `"seen"` is taken back to
`"delivered"` by a single-message transition with target
`"delivered"` — a Seen→Delivered regression the claim rules out.  The
trace uses only transitions the claim quantifies over (targets
`"seen"` then `"delivered"`). -/
theorem C1_counterexample :
    statusOf (applyStatusOps [⟨1, 7, 2, "sent", none, none⟩]
        [StatusOp.update 1 "seen" 9 10]) 1 = some "seen"
    ∧ statusOf (applyStatusOps [⟨1, 7, 2, "sent", none, none⟩]
        [StatusOp.update 1 "seen" 9 10, StatusOp.update 1 "delivered" 9 11]) 1
      = some "delivered" := by
  decide

/-- C1, amended: the bulk transitions never lower a message's rank in
the `Sent < Delivered < Seen` chain, and no sequence of bulk and
valid-target single-message transitions ever returns a message to
`Sent`; but the single-message transition writes its target
unconditionally, so Seen→Delivered regression is possible (see the
counterexample). -/
theorem C1_status_monotonic_amended :
    (∀ (msgs : List Message) (chatId userId now mid : Nat),
        rankOf msgs mid ≤ rankOf (markChatMessagesAsDelivered msgs chatId userId now) mid
      ∧ rankOf msgs mid ≤ rankOf (markChatMessagesAsSeen msgs chatId userId now) mid)
    ∧ (∀ (ops : List StatusOp) (msgs : List Message) (mid : Nat),
        ops.all validTarget = true →
        statusOf msgs mid ≠ some "sent" →
        statusOf (applyStatusOps msgs ops) mid ≠ some "sent") := by
  constructor
  · intro msgs chatId userId now mid
    exact ⟨rankOf_le_markDelivered msgs chatId userId now mid,
           rankOf_le_markSeen msgs chatId userId now mid⟩
  · intro ops msgs mid hops h
    exact statusOps_not_sent ops msgs mid hops h

/-- C1, witness for the amended theorem: a delivered message stays
away from `"sent"` under a seen-target transition, and bulk marks only
raise the rank of a sent message. -/
theorem C1_status_monotonic_amended_witness :
    rankOf [⟨1, 7, 2, "sent", none, none⟩] 1
        ≤ rankOf (markChatMessagesAsDelivered [⟨1, 7, 2, "sent", none, none⟩] 7 9 10) 1
    ∧ statusOf
        (applyStatusOps [⟨1, 7, 2, "delivered", some 5, none⟩]
          [StatusOp.update 1 "seen" 9 10]) 1 ≠ some "sent" :=
  ⟨(C1_status_monotonic_amended.1 [⟨1, 7, 2, "sent", none, none⟩] 7 9 10 1).1,
   C1_status_monotonic_amended.2 [StatusOp.update 1 "seen" 9 10]
     [⟨1, 7, 2, "delivered", some 5, none⟩] 1 (by decide) (by decide)⟩

/-- C2, counterexample: after `connect 0, join_chat(room 1), join_chat
(room 2)` connection 0 sits in both rooms' member arrays (the claim
allows at most one), and after re-joining room 1 it occurs twice in
that room's array (the claim says re-joining leaves the member set
unchanged). -/
theorem C2_counterexample :
    roomList (run [Ev.connect 0, Ev.join 0 1 5, Ev.join 0 2 5]) 1 = [0]
    ∧ roomList (run [Ev.connect 0, Ev.join 0 1 5, Ev.join 0 2 5]) 2 = [0]
    ∧ (roomList (run [Ev.connect 0, Ev.join 0 1 5, Ev.join 0 1 5]) 1).count 0 = 2 := by
  decide

/-- C2, amended: `join_chat` only appends — it pushes the connection
onto the target room's member array and leaves every other room's
array untouched, removing the connection from no previously bound
room; so a connection accumulates one array entry per join and may sit
in several rooms' arrays at once (only the close handler removes
entries, and only from the most recently bound room). -/
theorem C2_join_appends :
    ∀ (s : ServerState) (c chatId userId : Nat) (conn : Conn),
      alGet s.conns c = some conn → conn.isOpen = true →
      roomList (joinChat s c chatId userId).1 chatId = roomList s chatId ++ [c]
      ∧ (∀ r, r ≠ chatId → roomList (joinChat s c chatId userId).1 r = roomList s r) := by
  intro s c chatId userId conn hget hopen
  exact ⟨roomList_joinChat_self s c chatId userId conn hget hopen,
         fun r hr => roomList_joinChat_other s c chatId userId conn hget hopen r hr⟩

/-- C2, witness for the amended theorem: joining room 1 on a fresh
connection appends it to room 1 and leaves room 2 empty. -/
theorem C2_join_appends_witness :
    roomList (joinChat (run [Ev.connect 0]) 0 1 5).1 1
        = roomList (run [Ev.connect 0]) 1 ++ [0]
    ∧ roomList (joinChat (run [Ev.connect 0]) 0 1 5).1 2
        = roomList (run [Ev.connect 0]) 2 :=
  ⟨(C2_join_appends (run [Ev.connect 0]) 0 1 5 ⟨none, none, true⟩ rfl rfl).1,
   (C2_join_appends (run [Ev.connect 0]) 0 1 5 ⟨none, none, true⟩ rfl rfl).2 2
     (by decide)⟩

/-- C3, counterexample: a connection that joined room 1 twice receives
one room-1 broadcast twice — the claim says no connection receives the
same broadcast twice. -/
theorem C3_counterexample :
    (broadcastToChat (run [Ev.connect 0, Ev.join 0 1 5, Ev.join 0 1 5]) 1
        (Frame.newMessage 1 501)).count (0, Frame.newMessage 1 501) = 2 := by
  decide

/-- C3, amended: a room broadcast performs one send per entry of the
room's member array whose socket is open — a connection receives the
frame exactly as many times as it occurs in the array (so duplicate
entries from repeated joins mean duplicate delivery, stale entries mean
delivery to a connection bound elsewhere), closed sockets are skipped,
and a connection absent from the array receives nothing. -/
theorem C3_broadcast_per_entry :
    ∀ (s : ServerState) (chatId : Nat) (frame : Frame) (c : Nat),
      (broadcastToChat s chatId frame).count (c, frame)
        = if connOpen s c then (roomList s chatId).count c else 0 := by
  intro s chatId frame c
  unfold broadcastToChat
  exact count_filter_map_pair (roomList s chatId) (fun d => connOpen s d) frame c

/-- C5, counterexample: user 5 is already in the presence set when a
second connection joins as user 5, yet the join still broadcasts
`user_online` — the claim says no broadcast happens unless the user was
absent. -/
theorem C5_counterexample :
    5 ∈ (run [Ev.connect 0, Ev.join 0 1 5, Ev.connect 1]).onlineUsers
    ∧ (1, Frame.userOnline 5)
        ∈ (stepE (run [Ev.connect 0, Ev.join 0 1 5, Ev.connect 1]) (Ev.join 1 1 5)).2 := by
  decide

/-- C5, amended: every `join_chat` frame processed for a live
connection broadcasts `user_online` to every open connection,
unconditionally — whether or not the user was already in the presence
set. -/
theorem C5_user_online_every_join :
    ∀ (s : ServerState) (c chatId userId : Nat) (conn : Conn),
      alGet s.conns c = some conn → conn.isOpen = true →
      ∀ d, connOpen s d = true →
        (d, Frame.userOnline userId) ∈ (joinChat s c chatId userId).2 := by
  intro s c chatId userId conn hget hopen d hd
  rw [joinChat_eq s c chatId userId conn hget hopen]
  apply List.mem_append_right
  exact globalBroadcast_mem _ (Frame.userOnline userId) d
    (connOpen_joinChatState s c chatId userId conn hget hopen d hd)

/-- C5, witness for the amended theorem: with user 5 already online via
connection 0, connection 1 joining as user 5 still sends `user_online`
to connection 0. -/
theorem C5_user_online_every_join_witness :
    (0, Frame.userOnline 5)
      ∈ (joinChat (run [Ev.connect 0, Ev.join 0 1 5, Ev.connect 1]) 1 1 5).2 :=
  C5_user_online_every_join (run [Ev.connect 0, Ev.join 0 1 5, Ev.connect 1]) 1 1 5
    ⟨none, none, true⟩ (by decide) rfl 0 (by decide)

/-- C4, counterexample: for the event sequence `connect 0, join(user 5),
join(user 6)` — the same connection re-identifying as another user —
user 5 stays in `onlineUsers` although no live connection has owning
user 5; the claimed iff quantifies over all sequences of join_chat
frames and closures and so covers this one. -/
theorem C4_counterexample :
    5 ∈ (run [Ev.connect 0, Ev.join 0 1 5, Ev.join 0 1 6]).onlineUsers
    ∧ (run [Ev.connect 0, Ev.join 0 1 5, Ev.join 0 1 6]).conns
        = [(0, ⟨some 6, some 1, true⟩)]
    ∧ ¬(∃ c conn,
        alGet (run [Ev.connect 0, Ev.join 0 1 5, Ev.join 0 1 6]).conns c = some conn
        ∧ conn.isOpen = true ∧ conn.userId = some 5) := by
  refine ⟨by decide, by decide, ?_⟩
  rintro ⟨c, conn, hget, hopen, huid⟩
  have hconns : (run [Ev.connect 0, Ev.join 0 1 5, Ev.join 0 1 6]).conns
      = [(0, ⟨some 6, some 1, true⟩)] := by decide
  rw [hconns, alGet_cons] at hget
  by_cases hc : 0 = c
  · rw [if_pos hc] at hget
    injection hget with h1
    rw [← h1] at huid
    simp at huid
  · rw [if_neg hc] at hget
    exact absurd hget (by simp [alGet])

/-- C4, amended: provided every `join_chat` frame of a connection
carries the same owning user (the connection never re-identifies as a
different user) and that user id is nonzero — 0 is falsy in JS, so the
close handler's `if (ws.userId)` guard skips the offline re-evaluation
for user 0 (`closeConn_skips_user_zero`) — then after any sequence of
connects, joins and closures a user is in `onlineUsers` if and only if
some registered connection is open and owns that user, regardless of
which room it is bound to. -/
theorem C4_presence_iff_amended :
    ∀ (owner : Nat → Nat), (∀ c, owner c ≠ 0) →
      ∀ (evs : List Ev), evs.all (evOk owner) = true →
      ∀ u, u ∈ (run evs).onlineUsers ↔
        ∃ c conn, alGet (run evs).conns c = some conn ∧ conn.isOpen = true ∧
          conn.userId = some u := by
  intro owner howner evs hall u
  exact (inv_run owner howner evs hall).2.2 u

/-- C4, witness for the amended theorem: with two connections of user 5
and one closure, user 5's presence matches the existence of its
remaining open connection. -/
theorem C4_presence_iff_amended_witness :
    5 ∈ (run [Ev.connect 0, Ev.join 0 1 5, Ev.connect 1, Ev.join 1 2 5,
          Ev.close 0]).onlineUsers ↔
      ∃ c conn,
        alGet (run [Ev.connect 0, Ev.join 0 1 5, Ev.connect 1, Ev.join 1 2 5,
          Ev.close 0]).conns c = some conn ∧ conn.isOpen = true ∧
          conn.userId = some 5 :=
  C4_presence_iff_amended (fun _ => 5) (fun _ => Nat.succ_ne_zero 4)
    [Ev.connect 0, Ev.join 0 1 5, Ev.connect 1, Ev.join 1 2 5, Ev.close 0]
    (by decide) 5

end PandaNet

